import Mathlib

/-!
Verification development for the CustomOllamaTranslatorServer translation
pipeline.  Python strings are modelled as lists of Unicode codepoints
(PyStr := List Nat).  ASCII-relevant character classes are modelled exactly;
codepoints at or above 128 are treated as word/alphabetic characters, which
matches Python for the hangul/latin texts the dictionaries hold and is noted
at each definition it affects.  File I/O is modelled by explicit oracle
arguments (a Bool for write success, an Option value for a read result), and
Python exceptions by Except.
-/

/-- A Python string as its list of Unicode codepoints. -/
abbrev PyStr := List Nat

/-- Codepoints of a Lean string literal, to write concrete PyStr values. -/
def strOf (s : String) : PyStr := s.data.map Char.toNat

/-- Python str.lower / re.IGNORECASE folding on one codepoint (ASCII range). -/
def lowerN (c : Nat) : Nat := if 65 ≤ c ∧ c ≤ 90 then c + 32 else c

/-- Python str.lower on a whole string. -/
def pyLower (s : PyStr) : PyStr := s.map lowerN

/-- Python whitespace (the ASCII part of str.isspace / regex class backslash-s). -/
def isSpaceN (c : Nat) : Bool := c = 32 ∨ c = 9 ∨ c = 10 ∨ c = 11 ∨ c = 12 ∨ c = 13

/-- Regex word character (backslash-w): ASCII alphanumerics, underscore; codepoints
at or above 128 (Unicode letters such as hangul) are counted as word characters. -/
def isWordN (c : Nat) : Bool :=
  (48 ≤ c ∧ c ≤ 57) ∨ (65 ≤ c ∧ c ≤ 90) ∨ (97 ≤ c ∧ c ≤ 122) ∨ c = 95 ∨ 128 ≤ c

/-- ASCII decimal digit (Python str.isdigit, ASCII part). -/
def isDigitN (c : Nat) : Bool := 48 ≤ c ∧ c ≤ 57

/-- ASCII letter (the regex class [a-zA-Z]). -/
def isAsciiAlphaN (c : Nat) : Bool := (65 ≤ c ∧ c ≤ 90) ∨ (97 ≤ c ∧ c ≤ 122)

/-- Python str.isalpha on one codepoint: ASCII letters, and codepoints at or
above 128 modelled as alphabetic (Unicode letters). -/
def isAlphaN (c : Nat) : Bool := (65 ≤ c ∧ c ≤ 90) ∨ (97 ≤ c ∧ c ≤ 122) ∨ 128 ≤ c

/-- Drop leading whitespace (the left half of Python str.strip). -/
def stripLeft (s : PyStr) : PyStr := s.dropWhile isSpaceN

/-- Drop trailing whitespace (the right half of Python str.strip). -/
def stripRight : PyStr → PyStr
  | [] => []
  | c :: rest =>
    match stripRight rest with
    | [] => if isSpaceN c then [] else [c]
    | r => c :: r

/-- Python str.strip(): remove leading and trailing whitespace. -/
def pyStrip (s : PyStr) : PyStr := stripRight (stripLeft s)

/-- Helper for Python str.split(): accumulate the current token (reversed). -/
def pySplitAux : PyStr → PyStr → List PyStr
  | [], acc => if acc = [] then [] else [acc.reverse]
  | c :: rest, acc =>
    if isSpaceN c then
      if acc = [] then pySplitAux rest [] else acc.reverse :: pySplitAux rest []
    else pySplitAux rest (c :: acc)

/-- Python str.split() with no argument: split on whitespace runs, dropping
empty tokens. -/
def pySplit (s : PyStr) : List PyStr := pySplitAux s []

/-- First value bound to a key in an association list (Python dict lookup;
keys are unique in every state the program builds). -/
def lookupAssoc {K V : Type} [DecidableEq K] (l : List (K × V)) (k : K) : Option V :=
  (l.find? (fun p => p.1 = k)).map (fun p => p.2)

/-- Python dict assignment d[k] = v: update the entry in place if the key is
present (keeping its position), else append a new entry. -/
def dictInsert {K V : Type} [DecidableEq K] (l : List (K × V)) (k : K) (v : V) :
    List (K × V) :=
  if l.any (fun p => p.1 = k) then
    l.map (fun p => if p.1 = k then (k, v) else p)
  else l ++ [(k, v)]

/-! Boolean shape predicates used to reason about stripped strings. -/

/-- The string does not start with whitespace. -/
def noLeadSpace : PyStr → Bool
  | [] => true
  | c :: _ => !isSpaceN c

/-- The string does not end with whitespace. -/
def noTrailSpace : PyStr → Bool
  | [] => true
  | [c] => !isSpaceN c
  | _ :: rest => noTrailSpace rest

theorem lowerN_lowerN (c : Nat) : lowerN (lowerN c) = lowerN c := by
  unfold lowerN
  by_cases h : 65 ≤ c ∧ c ≤ 90
  · rw [if_pos h, if_neg (by omega)]
  · simp only [if_neg h]

theorem pyLower_pyLower (s : PyStr) : pyLower (pyLower s) = pyLower s := by
  unfold pyLower
  rw [List.map_map]
  exact List.map_congr_left (fun c _ => lowerN_lowerN c)

theorem isSpaceN_lowerN (c : Nat) : isSpaceN (lowerN c) = isSpaceN c := by
  unfold isSpaceN lowerN
  by_cases h : 65 ≤ c ∧ c ≤ 90
  · rw [if_pos h]
    simp only [decide_eq_decide]
    omega
  · rw [if_neg h]

theorem stripLeft_map_lowerN (s : PyStr) :
    stripLeft (pyLower s) = pyLower (stripLeft s) := by
  induction s with
  | nil => rfl
  | cons c rest ih =>
    simp only [pyLower, List.map_cons, stripLeft, List.dropWhile_cons,
      isSpaceN_lowerN] at *
    by_cases h : isSpaceN c
    · simp [h, ih]
    · simp [h]

theorem stripRight_map_lowerN (s : PyStr) :
    stripRight (pyLower s) = pyLower (stripRight s) := by
  induction s with
  | nil => rfl
  | cons c rest ih =>
    simp only [pyLower, List.map_cons] at *
    simp only [stripRight, ih]
    cases h : stripRight rest with
    | nil =>
      simp only [List.map_nil, isSpaceN_lowerN]
      by_cases hc : isSpaceN c
      · simp [hc]
      · simp [hc]
    | cons d ds => simp

theorem pyStrip_map_lowerN (s : PyStr) :
    pyStrip (pyLower s) = pyLower (pyStrip s) := by
  unfold pyStrip
  rw [stripLeft_map_lowerN, stripRight_map_lowerN]

theorem stripLeft_noLead (s : PyStr) : noLeadSpace (stripLeft s) = true := by
  induction s with
  | nil => rfl
  | cons c rest ih =>
    simp only [stripLeft, List.dropWhile_cons] at *
    by_cases h : isSpaceN c
    · simp [h, ih]
    · simp [h, noLeadSpace]

theorem stripLeft_fix (s : PyStr) (h : noLeadSpace s = true) : stripLeft s = s := by
  cases s with
  | nil => rfl
  | cons c rest =>
    simp only [noLeadSpace, Bool.not_eq_true'] at h
    simp [stripLeft, List.dropWhile_cons, h]

theorem stripRight_noTrail (s : PyStr) : noTrailSpace (stripRight s) = true := by
  induction s with
  | nil => rfl
  | cons c rest ih =>
    simp only [stripRight]
    cases h : stripRight rest with
    | nil =>
      by_cases hc : isSpaceN c
      · simp [hc, noTrailSpace]
      · simp [hc, noTrailSpace]
    | cons d ds =>
      rw [h] at ih
      cases ds with
      | nil => simpa [noTrailSpace] using ih
      | cons e es => simpa [noTrailSpace] using ih

theorem stripRight_fix (s : PyStr) (h : noTrailSpace s = true) : stripRight s = s := by
  induction s with
  | nil => rfl
  | cons c rest ih =>
    cases hrest : rest with
    | nil =>
      subst hrest
      simp only [noTrailSpace, Bool.not_eq_true'] at h
      simp [stripRight, h]
    | cons b bs =>
      subst hrest
      have h' : noTrailSpace (b :: bs) = true := by simpa [noTrailSpace] using h
      have hr := ih h'
      show (match stripRight (b :: bs) with
            | [] => if isSpaceN c then [] else [c]
            | r => c :: r) = c :: b :: bs
      rw [hr]

theorem stripRight_noLead (s : PyStr) (h : noLeadSpace s = true) :
    noLeadSpace (stripRight s) = true := by
  cases s with
  | nil => rfl
  | cons c rest =>
    simp only [noLeadSpace, Bool.not_eq_true'] at h
    simp only [stripRight]
    cases hr : stripRight rest with
    | nil => simp [h, noLeadSpace]
    | cons d ds => simp [noLeadSpace, h]

theorem pyStrip_pyStrip (s : PyStr) : pyStrip (pyStrip s) = pyStrip s := by
  unfold pyStrip
  rw [stripLeft_fix _ (stripRight_noLead _ (stripLeft_noLead s)),
    stripRight_fix _ (stripRight_noTrail _)]

/-! ## app/utils/language_utils.py -/

/-- The code_mapping table of normalize_language_code: full names and 3-letter
codes to ISO 639-1 codes. -/
def code_mapping : List (PyStr × PyStr) :=
  [ (strOf "korean", strOf "ko"), (strOf "english", strOf "en"),
    (strOf "japanese", strOf "ja"), (strOf "chinese", strOf "zh"),
    (strOf "spanish", strOf "es"), (strOf "french", strOf "fr"),
    (strOf "german", strOf "de"), (strOf "russian", strOf "ru"),
    (strOf "portuguese", strOf "pt"), (strOf "arabic", strOf "ar"),
    (strOf "kor", strOf "ko"), (strOf "eng", strOf "en"),
    (strOf "jpn", strOf "ja"), (strOf "chn", strOf "zh"),
    (strOf "esp", strOf "es"), (strOf "fra", strOf "fr"),
    (strOf "deu", strOf "de"), (strOf "rus", strOf "ru"),
    (strOf "por", strOf "pt"), (strOf "ara", strOf "ar") ]

/-- Python str.isalpha on a whole string: nonempty and all alphabetic. -/
def pyIsAlpha (s : PyStr) : Bool := s ≠ [] ∧ s.all isAlphaN

/-- normalize_language_code from app/utils/language_utils.py: empty input maps
to empty; otherwise lowercase and strip, return the table translation when
present, and otherwise return the lowercased form (the 2-letter-alphabetic
test selects between two branches that both return the same value, as in the
source). -/
def normalize_language_code (lang_code : PyStr) : PyStr :=
  if lang_code = [] then []
  else
    let normalized := pyStrip (pyLower lang_code)
    match lookupAssoc code_mapping normalized with
    | some v => v
    | none => if normalized.length = 2 ∧ pyIsAlpha normalized then normalized else normalized

theorem normalize_language_code_eq (s : PyStr) (hs : s ≠ []) :
    normalize_language_code s =
      match lookupAssoc code_mapping (pyStrip (pyLower s)) with
      | some v => v
      | none => pyStrip (pyLower s) := by
  unfold normalize_language_code
  rw [if_neg hs]
  cases hl : lookupAssoc code_mapping (pyStrip (pyLower s)) with
  | some v => simp [hl]
  | none => simp [hl]

/-- Claim C7: normalize_language_code is idempotent: applying it twice gives
the same result as applying it once, for every input string. -/
theorem normalize_idempotent (s : PyStr) :
    normalize_language_code (normalize_language_code s) = normalize_language_code s := by
  by_cases hs : s = []
  · simp [normalize_language_code, hs]
  · rw [normalize_language_code_eq s hs]
    cases hl : lookupAssoc code_mapping (pyStrip (pyLower s)) with
    | some v =>
      simp only
      have hall : ∀ p ∈ code_mapping, normalize_language_code p.2 = p.2 := by decide
      unfold lookupAssoc at hl
      rw [Option.map_eq_some'] at hl
      obtain ⟨p, hf, hpv⟩ := hl
      have hmem := List.mem_of_find?_eq_some hf
      rw [← hpv]
      exact hall p hmem
    | none =>
      simp only
      by_cases hne : pyStrip (pyLower s) = []
      · simp [hne, normalize_language_code]
      · rw [normalize_language_code_eq _ hne]
        have hstable : pyStrip (pyLower (pyStrip (pyLower s))) = pyStrip (pyLower s) := by
          calc pyStrip (pyLower (pyStrip (pyLower s)))
              = pyLower (pyStrip (pyStrip (pyLower s))) := pyStrip_map_lowerN _
            _ = pyLower (pyStrip (pyLower s)) := by rw [pyStrip_pyStrip]
            _ = pyStrip (pyLower (pyLower s)) := (pyStrip_map_lowerN _).symm
            _ = pyStrip (pyLower s) := by rw [pyLower_pyLower]
        rw [hstable, hl]

/-! ## clean_special_chars (app/services/translate_service.py and
app/services/translate_evaluator.py) -/

/-- A character kept by the regex [^ word space allowed ] substitution. -/
def keepChar (allowed : List Nat) (c : Nat) : Bool :=
  isWordN c || isSpaceN c || allowed.contains c

/-- The first re.sub: replace every character outside the allowed class with a
space. -/
def maskDisallowed (allowed : List Nat) (s : PyStr) : PyStr :=
  s.map (fun c => if keepChar allowed c then c else 32)

/-- The second re.sub: collapse every maximal whitespace run into one space. -/
def collapseSp : PyStr → PyStr
  | [] => []
  | c :: rest =>
    if isSpaceN c then
      match collapseSp rest with
      | [] => [32]
      | d :: ds => if isSpaceN d then d :: ds else 32 :: d :: ds
    else c :: collapseSp rest

/-- The common body of the two clean_special_chars variants, generic in the
allowed punctuation list: mask disallowed characters to spaces, collapse
whitespace runs, then strip. -/
def cleanSpecialWith (allowed : List Nat) (text : PyStr) : PyStr :=
  if text = [] then []
  else pyStrip (collapseSp (maskDisallowed allowed text))

/-- clean_special_chars from app/services/translate_service.py; the allowed
characters are exclamation mark, question mark, period, comma, single quote
and double quote. -/
def clean_special_chars (text : PyStr) : PyStr :=
  cleanSpecialWith [33, 63, 46, 44, 39, 34] text

/-- TranslationEvaluator.clean_special_chars from
app/services/translate_evaluator.py; the allowed characters are period,
comma, exclamation mark and question mark. -/
def evaluator_clean_special_chars (text : PyStr) : PyStr :=
  cleanSpecialWith [46, 44, 33, 63] text

/-- Every whitespace character of the string is the plain space 32. -/
def spacesAre32 (s : PyStr) : Bool := s.all (fun c => !isSpaceN c || c = 32)

/-- No two adjacent characters are both whitespace. -/
def noSpaceRun : PyStr → Bool
  | [] => true
  | [_] => true
  | a :: b :: r => (!(isSpaceN a && isSpaceN b)) && noSpaceRun (b :: r)

theorem noSpaceRun_tail (c : Nat) (r : PyStr) (h : noSpaceRun (c :: r) = true) :
    noSpaceRun r = true := by
  cases r with
  | nil => rfl
  | cons b bs =>
    simp only [noSpaceRun, Bool.and_eq_true] at h
    exact h.2

theorem noSpaceRun_append_left (l₁ l₂ : PyStr)
    (h : noSpaceRun (l₁ ++ l₂) = true) : noSpaceRun l₁ = true := by
  induction l₁ with
  | nil => rfl
  | cons a t ih =>
    cases t with
    | nil => rfl
    | cons b r =>
      simp only [List.cons_append] at h ih
      simp only [noSpaceRun, Bool.and_eq_true] at h ⊢
      exact ⟨h.1, ih h.2⟩

theorem noSpaceRun_append_right (l₁ l₂ : PyStr)
    (h : noSpaceRun (l₁ ++ l₂) = true) : noSpaceRun l₂ = true := by
  induction l₁ with
  | nil => exact h
  | cons a t ih =>
    simp only [List.cons_append] at h
    exact ih (noSpaceRun_tail _ _ h)

theorem stripRight_append_eq (s : PyStr) : ∃ t, stripRight s ++ t = s := by
  induction s with
  | nil => exact ⟨[], rfl⟩
  | cons c rest ih =>
    obtain ⟨t, ht⟩ := ih
    cases hr : stripRight rest with
    | nil =>
      by_cases hc : isSpaceN c
      · exact ⟨c :: rest, by simp [stripRight, hr, hc]⟩
      · exact ⟨rest, by simp [stripRight, hr, hc]⟩
    | cons d ds =>
      refine ⟨t, ?_⟩
      rw [hr] at ht
      simp [stripRight, hr, ht]

theorem all_stripLeft (q : Nat → Bool) (s : PyStr) (h : s.all q = true) :
    (stripLeft s).all q = true := by
  have := List.takeWhile_append_dropWhile (p := isSpaceN) (l := s)
  rw [← this, List.all_append, Bool.and_eq_true] at h
  exact h.2

theorem all_stripRight (q : Nat → Bool) (s : PyStr) (h : s.all q = true) :
    (stripRight s).all q = true := by
  obtain ⟨t, ht⟩ := stripRight_append_eq s
  rw [← ht, List.all_append, Bool.and_eq_true] at h
  exact h.1

theorem all_pyStrip (q : Nat → Bool) (s : PyStr) (h : s.all q = true) :
    (pyStrip s).all q = true :=
  all_stripRight q _ (all_stripLeft q s h)

theorem noSpaceRun_stripLeft (s : PyStr) (h : noSpaceRun s = true) :
    noSpaceRun (stripLeft s) = true := by
  have heq := List.takeWhile_append_dropWhile (p := isSpaceN) (l := s)
  rw [← heq] at h
  exact noSpaceRun_append_right _ _ h

theorem noSpaceRun_stripRight (s : PyStr) (h : noSpaceRun s = true) :
    noSpaceRun (stripRight s) = true := by
  obtain ⟨t, ht⟩ := stripRight_append_eq s
  rw [← ht] at h
  exact noSpaceRun_append_left _ _ h

theorem noSpaceRun_pyStrip (s : PyStr) (h : noSpaceRun s = true) :
    noSpaceRun (pyStrip s) = true :=
  noSpaceRun_stripRight _ (noSpaceRun_stripLeft s h)

theorem spacesAre32_cons (c : Nat) (l : PyStr) :
    spacesAre32 (c :: l) = ((!isSpaceN c || c = 32) && spacesAre32 l) := rfl

theorem keepChar_32 (allowed : List Nat) : keepChar allowed 32 = true := by
  have h32 : isSpaceN 32 = true := by decide
  simp [keepChar, h32]

theorem collapseSp_all (q : Nat → Bool) (h32 : q 32 = true) (s : PyStr)
    (h : s.all q = true) : (collapseSp s).all q = true := by
  induction s with
  | nil => rfl
  | cons c rest ih =>
    rw [List.all_cons, Bool.and_eq_true] at h
    have ihr := ih h.2
    simp only [collapseSp]
    by_cases hc : isSpaceN c
    · rw [if_pos hc]
      cases hr : collapseSp rest with
      | nil => simp [h32]
      | cons d ds =>
        rw [hr] at ihr
        show List.all (if isSpaceN d = true then d :: ds else 32 :: d :: ds) q = true
        by_cases hd : isSpaceN d
        · rw [if_pos hd]
          exact ihr
        · rw [if_neg hd, List.all_cons, ihr, h32]
          rfl
    · rw [if_neg hc, List.all_cons, ihr, h.1]
      rfl

theorem collapseSp_spaces32 (s : PyStr) : spacesAre32 (collapseSp s) = true := by
  induction s with
  | nil => rfl
  | cons c rest ih =>
    simp only [collapseSp]
    by_cases hc : isSpaceN c
    · rw [if_pos hc]
      cases hr : collapseSp rest with
      | nil => decide
      | cons d ds =>
        rw [hr] at ih
        show spacesAre32 (if isSpaceN d = true then d :: ds else 32 :: d :: ds) = true
        by_cases hd : isSpaceN d
        · rw [if_pos hd]
          exact ih
        · rw [if_neg hd, spacesAre32_cons, ih]
          decide
    · rw [if_neg hc, spacesAre32_cons, ih]
      simp [hc]

theorem collapseSp_noRun (s : PyStr) : noSpaceRun (collapseSp s) = true := by
  induction s with
  | nil => rfl
  | cons c rest ih =>
    simp only [collapseSp]
    by_cases hc : isSpaceN c
    · rw [if_pos hc]
      cases hr : collapseSp rest with
      | nil => rfl
      | cons d ds =>
        rw [hr] at ih
        show noSpaceRun (if isSpaceN d = true then d :: ds else 32 :: d :: ds) = true
        by_cases hd : isSpaceN d
        · rw [if_pos hd]
          exact ih
        · rw [if_neg hd]
          simp only [noSpaceRun, Bool.and_eq_true]
          exact ⟨by simp [hd], ih⟩
    · rw [if_neg hc]
      cases hr : collapseSp rest with
      | nil => rfl
      | cons d ds =>
        rw [hr] at ih
        simp only [noSpaceRun, Bool.and_eq_true]
        exact ⟨by simp [hc], ih⟩

theorem collapseSp_fix (s : PyStr) (h32 : spacesAre32 s = true)
    (hrun : noSpaceRun s = true) : collapseSp s = s := by
  induction s with
  | nil => rfl
  | cons c rest ih =>
    rw [spacesAre32_cons, Bool.and_eq_true] at h32
    have hr := ih h32.2 (noSpaceRun_tail _ _ hrun)
    simp only [collapseSp, hr]
    by_cases hc : isSpaceN c
    · have hc32 : c = 32 := by
        have h1 := h32.1
        rw [hc] at h1
        simpa using h1
      rw [if_pos hc]
      cases rest with
      | nil => rw [hc32]
      | cons d ds =>
        have hd : isSpaceN d = false := by
          simp only [noSpaceRun, Bool.and_eq_true] at hrun
          have h2 := hrun.1
          rw [hc] at h2
          simpa using h2
        show (if isSpaceN d = true then d :: ds else 32 :: d :: ds) = c :: d :: ds
        rw [hd, hc32]
        rfl
    · rw [if_neg hc]

theorem allKeep_mask (allowed : List Nat) (s : PyStr) :
    (maskDisallowed allowed s).all (keepChar allowed) = true := by
  induction s with
  | nil => rfl
  | cons c rest ih =>
    simp only [maskDisallowed, List.map_cons, List.all_cons, Bool.and_eq_true] at ih ⊢
    refine ⟨?_, ih⟩
    by_cases h : keepChar allowed c
    · simp [h]
    · rw [if_neg h]
      exact keepChar_32 allowed

theorem mask_fix (allowed : List Nat) (s : PyStr)
    (h : s.all (keepChar allowed) = true) : maskDisallowed allowed s = s := by
  induction s with
  | nil => rfl
  | cons c rest ih =>
    rw [List.all_cons, Bool.and_eq_true] at h
    simp only [maskDisallowed, List.map_cons] at ih ⊢
    rw [ih h.2, if_pos h.1]

theorem cleanSpecialWith_ne (allowed : List Nat) (t : PyStr) (ht : t ≠ []) :
    cleanSpecialWith allowed t = pyStrip (collapseSp (maskDisallowed allowed t)) := by
  unfold cleanSpecialWith
  rw [if_neg ht]

theorem cleanSpecialWith_idem (allowed : List Nat) (t : PyStr) :
    cleanSpecialWith allowed (cleanSpecialWith allowed t) = cleanSpecialWith allowed t := by
  by_cases ht : t = []
  · simp [cleanSpecialWith, ht]
  · have hu := cleanSpecialWith_ne allowed t ht
    by_cases hu0 : cleanSpecialWith allowed t = []
    · rw [hu0]
      rfl
    · have hkeep : (cleanSpecialWith allowed t).all (keepChar allowed) = true := by
        rw [hu]
        exact all_pyStrip _ _ (collapseSp_all _ (keepChar_32 allowed) _ (allKeep_mask allowed t))
      have h32 : spacesAre32 (cleanSpecialWith allowed t) = true := by
        rw [hu]
        exact all_pyStrip _ _ (collapseSp_spaces32 _)
      have hrun : noSpaceRun (cleanSpecialWith allowed t) = true := by
        rw [hu]
        exact noSpaceRun_pyStrip _ (collapseSp_noRun _)
      rw [cleanSpecialWith_ne _ _ hu0, mask_fix _ _ hkeep,
        collapseSp_fix _ h32 hrun, hu, pyStrip_pyStrip]

/-- Claim C10: both clean_special_chars variants (the translate-service one and
the evaluator one) are idempotent: applying either twice gives the same result
as applying it once, for every input string. -/
theorem clean_special_chars_idempotent (t : PyStr) :
    clean_special_chars (clean_special_chars t) = clean_special_chars t ∧
    evaluator_clean_special_chars (evaluator_clean_special_chars t) =
      evaluator_clean_special_chars t :=
  ⟨cleanSpecialWith_idem _ t, cleanSpecialWith_idem _ t⟩

/-! ## app/services/dictionary_manager.py -/

/-- A per-language dictionary: categories mapping to term-to-translation maps,
in insertion order (Python dicts preserve it). -/
abbrev TermDict := List (PyStr × List (PyStr × PyStr))

/-- The in-memory dictionary cache of DictionaryManager, language code to
dictionary. -/
abbrev DictsState := List (String × TermDict)

/-- Python exceptions that escape in the modelled code. -/
inductive PyError where
  | keyError
deriving DecidableEq

/-- DictionaryManager._priority_categories. -/
def _priority_categories : List PyStr :=
  [strOf "character_names", strOf "place_names", strOf "custom_terms",
   strOf "ui", strOf "general"]

/-- DictionaryManager.MAX_DIRECT_REPLACEMENT_LENGTH. -/
def MAX_DIRECT_REPLACEMENT_LENGTH : Nat := 30

/-- get_dictionary: return the cached dictionary for the language, else load
it.  fileExisted says whether the dictionary file existed (when it does not, a
default skeleton file is written first, write errors swallowed, with no
in-memory effect); readResult is the outcome of the json load of the file
(none means the open or parse raised).  On a read failure the except branch of
the source returns self._dictionaries[lang_code], which raises KeyError
because the language is never cached on that path. -/
def get_dictionary (dicts : DictsState) (lang_code : String)
    (_fileExisted : Bool) (readResult : Option TermDict) :
    Except PyError (TermDict × DictsState) :=
  match lookupAssoc dicts lang_code with
  | some d => .ok (d, dicts)
  | none =>
    match readResult with
    | some translations => .ok (translations, dictInsert dicts lang_code translations)
    | none =>
      match lookupAssoc dicts lang_code with
      | some d => .ok (d, dicts)
      | none => .error .keyError

/-- Case-insensitive (ASCII) test that pat begins the string. -/
def ciLeads : PyStr → PyStr → Bool
  | [], _ => true
  | _ :: _, [] => false
  | a :: as, b :: bs => (lowerN a = lowerN b) && ciLeads as bs

/-- Word-character status of an optional character; outside the string counts
as non-word, as for the regex word-boundary anchor. -/
def wordOpt : Option Nat → Bool
  | none => false
  | some c => isWordN c

/-- The pattern word-boundary, escaped source, word-boundary matches
case-insensitively at the current position of the scan; prev is the character
just before the position. -/
def matchHere (src : PyStr) (prev : Option Nat) (s : PyStr) : Bool :=
  (0 < src.length) && ciLeads src s &&
  (wordOpt prev != wordOpt s.head?) &&
  (wordOpt (s.take src.length).getLast? != wordOpt (s.drop src.length).head?)

/-- Scan for re.search of the word-bounded pattern. -/
def reSearchAux (src : PyStr) : Option Nat → PyStr → Bool
  | _, [] => false
  | prev, c :: rest => matchHere src prev (c :: rest) || reSearchAux src (some c) rest

/-- re.search of word-boundary, source, word-boundary with IGNORECASE. -/
def reSearchWord (src s : PyStr) : Bool := reSearchAux src none s

/-- Scan for re.sub of the word-bounded pattern, replacing each non-overlapping
leftmost match; fuel is an upper bound on the scan steps (the string length
suffices because every step consumes at least one character). -/
def reSubAux (src tr : PyStr) : Nat → Option Nat → PyStr → PyStr
  | 0, _, s => s
  | _ + 1, _, [] => []
  | fuel + 1, prev, c :: rest =>
    if matchHere src prev (c :: rest) then
      tr ++ reSubAux src tr fuel ((c :: rest).take src.length).getLast?
        ((c :: rest).drop src.length)
    else c :: reSubAux src tr fuel (some c) rest

/-- re.sub of word-boundary, source, word-boundary with IGNORECASE, replacing
every match by tr. -/
def reSubWord (src tr s : PyStr) : PyStr := reSubAux src tr s.length none s

/-- Python str.isdigit (ASCII digits). -/
def pyIsDigit (s : PyStr) : Bool := !s.isEmpty && s.all isDigitN

/-- re.match of caret [a-zA-Z]+ dollar: nonempty and all ASCII letters. -/
def pyIsAsciiAlpha (s : PyStr) : Bool := !s.isEmpty && s.all isAsciiAlphaN

/-- Literal prefix test, for the Python substring operator. -/
def leadsEq : PyStr → PyStr → Bool
  | [], _ => true
  | _ :: _, [] => false
  | a :: as, b :: bs => (a = b) && leadsEq as bs

/-- Python substring containment (the in operator on strings). -/
def containsSub (pat : PyStr) : PyStr → Bool
  | [] => leadsEq pat []
  | c :: rest => leadsEq pat (c :: rest) || containsSub pat rest

/-- The exact-match lookup inside one category of get_translation: key lookup
first, then a case-insensitive scan in insertion order. -/
def exactMatchInCategory (items : List (PyStr × PyStr)) (text : PyStr) : Option PyStr :=
  match lookupAssoc items text with
  | some tr => some tr
  | none => (items.find? (fun p => pyLower p.1 = pyLower text)).map (fun p => p.2)

/-- The exact-match loop of get_translation over the priority categories. -/
def exactPhase (dictionary : TermDict) (text : PyStr) : Option PyStr :=
  _priority_categories.foldl (fun acc category =>
    match acc with
    | some r => some r
    | none =>
      match lookupAssoc dictionary category with
      | some items => exactMatchInCategory items text
      | none => none) none

/-- One category's pass of the partial-substitution loop of get_translation. -/
def substCategory (items : List (PyStr × PyStr)) (acc : PyStr × Bool) : PyStr × Bool :=
  items.foldl (fun rm p =>
    if 2 < p.1.length then
      if reSearchWord p.1 rm.1 then (reSubWord p.1 p.2 rm.1, true) else rm
    else rm) acc

/-- The partial-substitution loop of get_translation: whole-word,
case-insensitive replacement of every dictionary term longer than 2
characters, categories in priority order, cumulatively on the result. -/
def partialPhase (dictionary : TermDict) (text : PyStr) : PyStr × Bool :=
  _priority_categories.foldl (fun rm category =>
    match lookupAssoc dictionary category with
    | some items => substCategory items rm
    | none => rm) (text, false)

/-- The mixed-language check of get_translation: some original whitespace
token, longer than one character, not a digit string, made of ASCII letters
only, still appears case-insensitively as a whole token of the result. -/
def containsUntranslated (original_words result_words : List PyStr) : Bool :=
  original_words.any (fun w =>
    if w.length ≤ 1 || pyIsDigit w then false
    else if pyIsAsciiAlpha w then
      result_words.any (fun rw => pyLower rw = pyLower w)
    else false)

/-- The body of get_translation after the dictionary has been fetched: the
empty-dictionary guard, the exact phase, then the partial phase with the
mixed-language check. -/
def getTranslationCore (dictionary : TermDict) (text : PyStr) : Option PyStr :=
  if dictionary = [] then none
  else
    match exactPhase dictionary text with
    | some tr => some tr
    | none =>
      let original_words := pySplit text
      let rm := partialPhase dictionary text
      if rm.2 then
        if containsUntranslated original_words (pySplit rm.1) then none
        else some rm.1
      else none

/-- get_translation from dictionary_manager.py: empty or whitespace-only text
is returned unchanged; text longer than 30 characters that contains a space
is reference-only (None); otherwise fetch the dictionary (possibly loading
it, see get_dictionary) and run the exact then partial phases. -/
def get_translation (dicts : DictsState) (fileExisted : Bool)
    (readResult : Option TermDict) (text : PyStr) (target_lang : String) :
    Except PyError (Option PyStr × DictsState) :=
  if text = [] ∨ pyStrip text = [] then .ok (some text, dicts)
  else if MAX_DIRECT_REPLACEMENT_LENGTH < text.length ∧ text.contains 32 then
    .ok (none, dicts)
  else
    match get_dictionary dicts target_lang fileExisted readResult with
    | .error e => .error e
    | .ok (dictionary, dicts') => .ok (getTranslationCore dictionary text, dicts')

/-- add_translation from dictionary_manager.py.  confidence is given in exact
tenths (the source uses a float, and every comparison the program performs is
exact at the multiples of one tenth it uses: 0.9 is 9, 0.8 is 8, and the 0.5
threshold is 5); writeOk is the outcome of the dictionary file write.  The
in-memory upsert happens before the write, so it is retained even when the
write fails. -/
def add_translation (dicts : DictsState) (text translation : PyStr)
    (target_lang : String) (category : PyStr) (confidence_tenths : Nat)
    (writeOk : Bool) : Bool × DictsState :=
  if text = [] ∨ pyStrip text = [] ∨ translation = [] ∨ pyStrip translation = [] then
    (false, dicts)
  else if confidence_tenths < 5 then (false, dicts)
  else if MAX_DIRECT_REPLACEMENT_LENGTH < text.length then (false, dicts)
  else if text.all (fun c => isDigitN c || !isWordN c) then (false, dicts)
  else
    let dictionary := (lookupAssoc dicts target_lang).getD []
    let items := (lookupAssoc dictionary category).getD []
    let dictionary' := dictInsert dictionary category (dictInsert items text translation)
    (writeOk, dictInsert dicts target_lang dictionary')

/-- A learned word mapping from the structured model response. -/
structure WordMappingE where
  category : Option PyStr
  word : PyStr
  translation : PyStr
deriving DecidableEq

/-- process_word_mapping from dictionary_manager.py: default an absent or
blank category to custom_terms, trim the fields, add with confidence 0.9;
writeOk is the per-write file outcome. -/
def process_word_mapping (dicts : DictsState) (word_mapping : List WordMappingE)
    (target_lang : String) (writeOk : Bool) : DictsState :=
  word_mapping.foldl (fun st item =>
    let category :=
      match item.category with
      | none => strOf "custom_terms"
      | some c => if pyStrip c = [] then strOf "custom_terms" else c
    (add_translation st (pyStrip item.word) (pyStrip item.translation) target_lang
      (pyStrip category) 9 writeOk).2) dicts

/-- get_prompt_references from dictionary_manager.py, after the dictionary
fetch: every term longer than 2 characters present in the text by word
boundary or by space padding, in priority-category order. -/
def getPromptReferencesCore (dictionary : TermDict) (text : PyStr) :
    List (PyStr × PyStr) :=
  _priority_categories.foldl (fun refs category =>
    match lookupAssoc dictionary category with
    | some items =>
      items.foldl (fun refs p =>
        if 2 < p.1.length &&
            (reSearchWord p.1 text ||
              containsSub (32 :: (p.1 ++ [32])) (32 :: (text ++ [32]))) then
          refs ++ [p]
        else refs) refs
    | none => refs) []

/-- get_prompt_references with its empty-text and empty-dictionary guards and
the dictionary fetch. -/
def get_prompt_references (dicts : DictsState) (fileExisted : Bool)
    (readResult : Option TermDict) (text : PyStr) (target_lang : String) :
    Except PyError (List (PyStr × PyStr) × DictsState) :=
  if text = [] ∨ pyStrip text = [] then .ok ([], dicts)
  else
    match get_dictionary dicts target_lang fileExisted readResult with
    | .error e => .error e
    | .ok (dictionary, dicts') =>
      if dictionary = [] then .ok ([], dicts')
      else .ok (getPromptReferencesCore dictionary text, dicts')

theorem pyIsAsciiAlpha_not_digit (w : PyStr) (h : pyIsAsciiAlpha w = true) :
    pyIsDigit w = false := by
  cases w with
  | nil => exact absurd h (by simp [pyIsAsciiAlpha])
  | cons c cs =>
    have hc : isAsciiAlphaN c = true := by
      simp only [pyIsAsciiAlpha, List.all_cons, Bool.and_eq_true] at h
      exact h.2.1
    simp only [pyIsDigit, List.all_cons]
    rw [Bool.and_eq_false_iff]
    right
    rw [Bool.and_eq_false_iff]
    left
    simp only [isAsciiAlphaN, decide_eq_true_eq] at hc
    simp only [isDigitN, decide_eq_false_iff_not]
    omega

theorem containsUntranslated_spec (ow rws : List PyStr)
    (h : containsUntranslated ow rws = false) :
    ∀ w ∈ ow, 1 < w.length → pyIsAsciiAlpha w = true →
      ∀ rw ∈ rws, pyLower rw ≠ pyLower w := by
  intro w hw hlen halpha rw hrw heq
  unfold containsUntranslated at h
  rw [List.any_eq_false] at h
  have hfw := h w hw
  rw [if_neg (by
        rw [Bool.or_eq_true, not_or]
        constructor
        · simp only [decide_eq_true_eq]
          omega
        · rw [pyIsAsciiAlpha_not_digit w halpha]
          simp)] at hfw
  rw [if_pos halpha] at hfw
  apply hfw
  rw [List.any_eq_true]
  exact ⟨rw, hrw, by simp [heq]⟩

/-- Claim C1: when get_translation reaches the partial-substitution phase (the
text is nonempty and not reference-only, the fetched dictionary has no exact
match) and returns a substituted result, no whitespace token of the original
text that is longer than one character and made of ASCII letters only
survives, case-insensitively, as a whole token of the result; whenever such a
token would survive, get_translation returns none instead (the conclusion
quantifies over every original token, which covers in particular the
unmatched ones). -/
theorem get_translation_partial_safety
    (dicts : DictsState) (fe : Bool) (rr : Option TermDict)
    (text r : PyStr) (lang : String) (dicts' : DictsState)
    (d : TermDict) (ds : DictsState)
    (hdict : get_dictionary dicts lang fe rr = .ok (d, ds))
    (hexact : exactPhase d text = none)
    (hne : ¬(text = [] ∨ pyStrip text = []))
    (hres : get_translation dicts fe rr text lang = .ok (some r, dicts')) :
    ∀ w ∈ pySplit text, 1 < w.length → pyIsAsciiAlpha w = true →
      ∀ rw ∈ pySplit r, pyLower rw ≠ pyLower w := by
  unfold get_translation at hres
  rw [if_neg hne] at hres
  by_cases hlong : MAX_DIRECT_REPLACEMENT_LENGTH < text.length ∧ text.contains 32
  · rw [if_pos hlong] at hres
    exact absurd hres (by simp)
  · rw [if_neg hlong, hdict] at hres
    simp only [Except.ok.injEq, Prod.mk.injEq] at hres
    have hcore : getTranslationCore d text = some r := hres.1
    unfold getTranslationCore at hcore
    by_cases hd0 : d = []
    · rw [if_pos hd0] at hcore
      exact absurd hcore (by simp)
    · rw [if_neg hd0, hexact] at hcore
      simp only at hcore
      by_cases hmade : (partialPhase d text).2 = true
      · rw [if_pos hmade] at hcore
        by_cases hcu :
            containsUntranslated (pySplit text) (pySplit (partialPhase d text).1) = true
        · rw [if_pos hcu] at hcore
          exact absurd hcore (by simp)
        · rw [if_neg hcu] at hcore
          have hr : (partialPhase d text).1 = r := by simpa using hcore
          rw [← hr]
          exact containsUntranslated_spec _ _ (by simpa using hcu)
      · rw [if_neg hmade] at hcore
        exact absurd hcore (by simp)

/-- A concrete dictionary exercising the partial-substitution path. -/
def exDict : TermDict :=
  [(strOf "custom_terms",
    [(strOf "Sara", strOf "사라"), (strOf "likes", strOf "좋아하다"),
     (strOf "cats", strOf "고양이")])]

/-- The in-memory cache holding exDict for Korean. -/
def exDicts : DictsState := [("ko", exDict)]

/-- Witness for the partial-substitution safety theorem: on the text Sara
likes cats, every term is substituted, the result is returned, and the token
cats does not survive in it. -/
theorem get_translation_partial_safety_witness :
    pyLower (strOf "고양이") ≠ pyLower (strOf "cats") :=
  get_translation_partial_safety exDicts true none (strOf "Sara likes cats")
    (strOf "사라 좋아하다 고양이") "ko" exDicts exDict exDicts rfl rfl (by decide) rfl
    (strOf "cats") (by decide) (by decide) (by decide)
    (strOf "고양이") (by decide)

/-- Counterexample to claim C2: add_translation of Sara under the category
proper_nouns succeeds, yet the following get_translation of Sara returns
none rather than the stored translation, because lookup only consults the
fixed priority-category list, which does not contain proper_nouns. -/
theorem add_translation_proper_nouns_cex :
    (add_translation [] (strOf "Sara") (strOf "사라") "ko" (strOf "proper_nouns")
        9 true).1 = true ∧
    get_translation
        (add_translation [] (strOf "Sara") (strOf "사라") "ko" (strOf "proper_nouns")
          9 true).2 true none (strOf "Sara") "ko" =
      .ok (none,
        (add_translation [] (strOf "Sara") (strOf "사라") "ko" (strOf "proper_nouns")
          9 true).2) :=
  ⟨rfl, rfl⟩

/-- Claim C2 amended: the learning round-trip holds for every category on the
priority list (custom_terms is both on the list and the default category):
after add_translation of Sara to 사라 under such a category succeeds,
get_translation of Sara returns 사라; a category off the list, such as
proper_nouns, is invisible to get_translation. -/
theorem add_translation_roundtrip (cat : PyStr)
    (hcat : cat ∈ _priority_categories) :
    (add_translation [] (strOf "Sara") (strOf "사라") "ko" cat 9 true).1 = true ∧
    get_translation
        (add_translation [] (strOf "Sara") (strOf "사라") "ko" cat 9 true).2
        true none (strOf "Sara") "ko" =
      .ok (some (strOf "사라"),
        (add_translation [] (strOf "Sara") (strOf "사라") "ko" cat 9 true).2) := by
  simp only [_priority_categories, List.mem_cons, List.not_mem_nil, or_false] at hcat
  rcases hcat with rfl | rfl | rfl | rfl | rfl <;> exact ⟨rfl, rfl⟩

/-- Witness for the amended round-trip at the default category custom_terms. -/
theorem add_translation_roundtrip_witness :
    get_translation
        (add_translation [] (strOf "Sara") (strOf "사라") "ko" (strOf "custom_terms")
          9 true).2 true none (strOf "Sara") "ko" =
      .ok (some (strOf "사라"),
        (add_translation [] (strOf "Sara") (strOf "사라") "ko" (strOf "custom_terms")
          9 true).2) :=
  (add_translation_roundtrip (strOf "custom_terms") (by decide)).2

/-- Claim C9 (code bug evaluation): the add_translation half of the claim
holds: a failed dictionary-file write returns false while the in-memory
dictionary retains the upserted entry; but the get_dictionary half fails on
the code: on a read failure for a language that is not in the in-memory
cache, the except handler of the source evaluates
self._dictionaries[lang_code] and itself raises KeyError, so get_dictionary
does raise on a file read failure. -/
theorem dictionary_io_failure_eval :
    add_translation [] (strOf "Sara") (strOf "사라") "ko" (strOf "custom_terms")
        8 false =
      (false, [("ko", [(strOf "custom_terms", [(strOf "Sara", strOf "사라")])])]) ∧
    get_dictionary [] "ko" true none = .error .keyError :=
  ⟨rfl, rfl⟩

/-! ## app/services/translate_history.py -/

/-- One translation history record; the timestamp is the caller-supplied
clock reading (datetime.now is an external input). -/
structure HistRecord where
  source_text : PyStr
  translated_text : PyStr
  quality_score : Option Int
  feedback : Option PyStr
  timestamp : Nat
deriving DecidableEq

/-- TranslationHistory._max_history_per_lang_pair. -/
def _max_history_per_lang_pair : Nat := 10

/-- The last n elements of a list (the Python slice l[-n:]). -/
def lastN (n : Nat) (l : List HistRecord) : List HistRecord := l.drop (l.length - n)

/-- The per-key body of add_history: drop any record with the same source
text, append the new record, keep the most recent 10. -/
def addHistoryList (l : List HistRecord) (r : HistRecord) : List HistRecord :=
  let deduped := l.filter (fun item => item.source_text ≠ r.source_text)
  let appended := deduped ++ [r]
  if _max_history_per_lang_pair < appended.length then
    lastN _max_history_per_lang_pair appended
  else appended

/-- TranslationHistory._history: language-pair key to record list. -/
abbrev HistState := List (String × List HistRecord)

/-- The language-pair key used by add_history and get_history. -/
def histKey (source_lang target_lang : String) : String :=
  source_lang ++ ":" ++ target_lang

/-- add_history from translate_history.py (the trailing file save has no
in-memory effect and its errors are swallowed). -/
def add_history (h : HistState) (source_lang target_lang : String)
    (r : HistRecord) : HistState :=
  dictInsert h (histKey source_lang target_lang)
    (addHistoryList ((lookupAssoc h (histKey source_lang target_lang)).getD []) r)

/-- get_history from translate_history.py. -/
def get_history (h : HistState) (source_lang target_lang : String) :
    List HistRecord :=
  (lookupAssoc h (histKey source_lang target_lang)).getD []

/-- A sequence of add_history calls for one language pair from the empty
state. -/
def runHistory (source_lang target_lang : String) (rs : List HistRecord) :
    HistState :=
  rs.foldl (fun h r => add_history h source_lang target_lang r) []

theorem lookupAssoc_map_update {K V : Type} [DecidableEq K]
    (l : List (K × V)) (k : K) (v : V) (h : l.any (fun p => p.1 = k) = true) :
    lookupAssoc (l.map (fun p => if p.1 = k then (k, v) else p)) k = some v := by
  induction l with
  | nil => simp at h
  | cons p rest ih =>
    by_cases hp : p.1 = k
    · simp [lookupAssoc, List.find?_cons, hp]
    · rw [List.any_cons] at h
      have hr : rest.any (fun q => q.1 = k) = true := by
        rcases Bool.or_eq_true _ _ |>.mp h with h1 | h1
        · exact absurd (by simpa using h1) hp
        · exact h1
      simp only [List.map_cons, if_neg hp]
      simp only [lookupAssoc, List.find?_cons] at ih ⊢
      rw [decide_eq_false hp]
      exact ih hr

theorem lookupAssoc_append_fresh {K V : Type} [DecidableEq K]
    (l : List (K × V)) (k : K) (v : V) (h : l.any (fun p => p.1 = k) = false) :
    lookupAssoc (l ++ [(k, v)]) k = some v := by
  induction l with
  | nil => simp [lookupAssoc, List.find?]
  | cons p rest ih =>
    rw [List.any_cons, Bool.or_eq_false_iff] at h
    have hp : ¬p.1 = k := by simpa using h.1
    simp only [List.cons_append, lookupAssoc, List.find?_cons] at ih ⊢
    rw [decide_eq_false hp]
    exact ih h.2

theorem lookupAssoc_dictInsert_self {K V : Type} [DecidableEq K]
    (l : List (K × V)) (k : K) (v : V) :
    lookupAssoc (dictInsert l k v) k = some v := by
  unfold dictInsert
  by_cases h : l.any (fun p => p.1 = k) = true
  · rw [if_pos h]
    exact lookupAssoc_map_update l k v h
  · rw [if_neg h]
    exact lookupAssoc_append_fresh l k v (by
      simp only [Bool.not_eq_true] at h
      exact h)

theorem get_add_history (h : HistState) (sl tl : String) (r : HistRecord) :
    get_history (add_history h sl tl r) sl tl =
      addHistoryList (get_history h sl tl) r := by
  unfold get_history add_history
  rw [lookupAssoc_dictInsert_self]
  rfl

theorem get_foldl_history (rs : List HistRecord) :
    ∀ (h : HistState) (sl tl : String),
      get_history (rs.foldl (fun h r => add_history h sl tl r) h) sl tl =
        rs.foldl addHistoryList (get_history h sl tl) := by
  induction rs with
  | nil => intro h sl tl; rfl
  | cons r rs ih =>
    intro h sl tl
    rw [List.foldl_cons, List.foldl_cons, ih, get_add_history]

theorem get_runHistory (sl tl : String) (rs : List HistRecord) :
    get_history (runHistory sl tl rs) sl tl = rs.foldl addHistoryList [] := by
  unfold runHistory
  rw [get_foldl_history]
  rfl

theorem addHistoryList_length_le (l : List HistRecord) (r : HistRecord) :
    (addHistoryList l r).length ≤ 10 := by
  unfold addHistoryList
  by_cases h : _max_history_per_lang_pair <
      (l.filter (fun item => item.source_text ≠ r.source_text) ++ [r]).length
  · rw [if_pos h]
    unfold lastN _max_history_per_lang_pair
    rw [List.length_drop]
    unfold _max_history_per_lang_pair at h
    omega
  · rw [if_neg h]
    unfold _max_history_per_lang_pair at h
    omega

theorem addHistoryList_pairwise (l : List HistRecord) (r : HistRecord)
    (hl : l.Pairwise (fun a b => a.source_text ≠ b.source_text)) :
    (addHistoryList l r).Pairwise (fun a b => a.source_text ≠ b.source_text) := by
  unfold addHistoryList
  have hded : (l.filter (fun item => item.source_text ≠ r.source_text)).Pairwise
      (fun a b => a.source_text ≠ b.source_text) :=
    hl.sublist (List.filter_sublist l)
  have happ : ((l.filter (fun item => item.source_text ≠ r.source_text)) ++ [r]).Pairwise
      (fun a b => a.source_text ≠ b.source_text) := by
    rw [List.pairwise_append]
    refine ⟨hded, List.pairwise_singleton _ _, ?_⟩
    intro a ha b hb
    rw [List.mem_singleton] at hb
    subst hb
    have := List.of_mem_filter ha
    simpa using this
  by_cases h : _max_history_per_lang_pair <
      (l.filter (fun item => item.source_text ≠ r.source_text) ++ [r]).length
  · rw [if_pos h]
    exact happ.sublist (List.drop_sublist _ _)
  · rw [if_neg h]
    exact happ

theorem filter_ne_length (l : List HistRecord) (s : PyStr)
    (hl : l.Pairwise (fun a b => a.source_text ≠ b.source_text))
    (hmem : s ∈ l.map (fun q => q.source_text)) :
    (l.filter (fun item => item.source_text ≠ s)).length + 1 = l.length := by
  induction l with
  | nil => simp at hmem
  | cons p rest ih =>
    rw [List.pairwise_cons] at hl
    by_cases hp : p.source_text = s
    · have hrest : rest.filter (fun item => item.source_text ≠ s) = rest := by
        rw [List.filter_eq_self]
        intro a ha
        have := hl.1 a ha
        rw [hp] at this
        simpa using this.symm
      rw [List.filter_cons]
      rw [if_neg (by simpa using hp)]
      rw [hrest]
      simp
    · have hmem' : s ∈ rest.map (fun q => q.source_text) := by
        rw [List.map_cons, List.mem_cons] at hmem
        rcases hmem with h1 | h1
        · exact absurd h1.symm hp
        · exact h1
      rw [List.filter_cons, if_pos (by simpa using hp)]
      simp only [List.length_cons]
      rw [← ih hl.2 hmem']

theorem find_append_last (dl : List HistRecord) (r : HistRecord)
    (h : ∀ q ∈ dl, q.source_text ≠ r.source_text) :
    (dl ++ [r]).find? (fun q => q.source_text = r.source_text) = some r := by
  induction dl with
  | nil => simp [List.find?]
  | cons p rest ih =>
    rw [List.cons_append, List.find?_cons]
    rw [decide_eq_false (h p (List.mem_cons_self _ _))]
    exact ih (fun q hq => h q (List.mem_cons_of_mem _ hq))

theorem addHistoryList_readd (l : List HistRecord) (r : HistRecord)
    (hl : l.Pairwise (fun a b => a.source_text ≠ b.source_text))
    (hlen : l.length ≤ 10)
    (hmem : r.source_text ∈ l.map (fun q => q.source_text)) :
    (addHistoryList l r).length = l.length ∧
    (addHistoryList l r).find? (fun q => q.source_text = r.source_text) = some r := by
  unfold addHistoryList
  have hflen := filter_ne_length l r.source_text hl hmem
  have hnotrunc : ¬ _max_history_per_lang_pair <
      (l.filter (fun item => item.source_text ≠ r.source_text) ++ [r]).length := by
    unfold _max_history_per_lang_pair
    rw [List.length_append, List.length_singleton]
    omega
  rw [if_neg hnotrunc]
  constructor
  · rw [List.length_append, List.length_singleton]
    omega
  · exact find_append_last _ _ (fun q hq => by
      have := List.of_mem_filter hq
      simpa using this)

theorem lastN_of_le (l : List HistRecord) (h : l.length ≤ 10) : lastN 10 l = l := by
  unfold lastN
  rw [show l.length - 10 = 0 by omega, List.drop_zero]

theorem lastN_length (n : Nat) (l : List HistRecord) :
    (lastN n l).length = l.length - (l.length - n) := by
  unfold lastN
  rw [List.length_drop]

theorem lastN_append_lastN (n : Nat) (x ys : List HistRecord) :
    lastN n (lastN n x ++ ys) = lastN n (x ++ ys) := by
  unfold lastN
  rw [List.drop_append_eq_append_drop, List.drop_append_eq_append_drop,
    List.drop_drop]
  have h1 : x.length - n + ((x.drop (x.length - n) ++ ys).length - n)
      = (x ++ ys).length - n := by
    simp only [List.length_append, List.length_drop]
    omega
  have h2 : (x.drop (x.length - n) ++ ys).length - n - (x.drop (x.length - n)).length
      = (x ++ ys).length - n - x.length := by
    simp only [List.length_append, List.length_drop]
    omega
  rw [h1, h2]

theorem addHistoryList_fresh (l : List HistRecord) (r : HistRecord)
    (hfresh : ∀ a ∈ l, a.source_text ≠ r.source_text) (_hlen : l.length ≤ 10) :
    addHistoryList l r = lastN 10 (l ++ [r]) := by
  unfold addHistoryList
  have hfil : l.filter (fun item => item.source_text ≠ r.source_text) = l := by
    rw [List.filter_eq_self]
    intro a ha
    simpa using hfresh a ha
  rw [hfil]
  by_cases hc : _max_history_per_lang_pair < (l ++ [r]).length
  · rw [if_pos hc]
    rfl
  · rw [if_neg hc]
    unfold _max_history_per_lang_pair at hc
    rw [lastN_of_le _ (by omega)]

theorem foldl_addHistoryList_fresh (rs : List HistRecord) :
    ∀ l : List HistRecord, l.length ≤ 10 →
      (∀ a ∈ l, ∀ b ∈ rs, a.source_text ≠ b.source_text) →
      (rs.map (fun q => q.source_text)).Pairwise (fun a b => a ≠ b) →
      rs.foldl addHistoryList l = lastN 10 (l ++ rs) := by
  induction rs with
  | nil =>
    intro l hlen _ _
    rw [List.foldl_nil, List.append_nil, lastN_of_le _ hlen]
  | cons r rs ih =>
    intro l hlen hdisj hdist
    rw [List.foldl_cons]
    rw [addHistoryList_fresh l r
      (fun a ha => hdisj a ha r (List.mem_cons_self _ _)) hlen]
    rw [List.map_cons, List.pairwise_cons] at hdist
    have hstep := ih (lastN 10 (l ++ [r]))
      (by rw [lastN_length]; omega)
      (by
        intro a ha b hb
        have hmem : a ∈ l ++ [r] := List.mem_of_mem_drop ha
        rw [List.mem_append, List.mem_singleton] at hmem
        rcases hmem with h1 | h1
        · exact hdisj a h1 b (List.mem_cons_of_mem _ hb)
        · subst h1
          have := hdist.1 b.source_text (List.mem_map_of_mem _ hb)
          exact this)
      hdist.2
    rw [hstep, lastN_append_lastN]
    rw [List.append_assoc]
    rfl

theorem foldl_addHistoryList_inv (rs : List HistRecord) :
    ∀ l : List HistRecord,
      l.length ≤ 10 → l.Pairwise (fun a b => a.source_text ≠ b.source_text) →
      (rs.foldl addHistoryList l).length ≤ 10 ∧
      (rs.foldl addHistoryList l).Pairwise (fun a b => a.source_text ≠ b.source_text) := by
  induction rs with
  | nil => intro l hlen hpw; exact ⟨hlen, hpw⟩
  | cons r rs ih =>
    intro l hlen hpw
    rw [List.foldl_cons]
    exact ih _ (addHistoryList_length_le l r) (addHistoryList_pairwise l r hpw)

/-- Claim C5: for every sequence of add_history calls on a language pair the
stored history holds at most 10 records and the records have pairwise
distinct source texts; re-adding an already-present source text keeps the
count unchanged and stores the new record for that source; and for distinct
source texts the retained records are exactly the last 10 added. -/
theorem add_history_bounded :
    (∀ (sl tl : String) (rs : List HistRecord),
      (get_history (runHistory sl tl rs) sl tl).length ≤ 10 ∧
      (get_history (runHistory sl tl rs) sl tl).Pairwise
        (fun a b => a.source_text ≠ b.source_text)) ∧
    (∀ (sl tl : String) (rs : List HistRecord) (r : HistRecord),
      r.source_text ∈ (get_history (runHistory sl tl rs) sl tl).map
          (fun q => q.source_text) →
      (get_history (runHistory sl tl (rs ++ [r])) sl tl).length =
        (get_history (runHistory sl tl rs) sl tl).length ∧
      (get_history (runHistory sl tl (rs ++ [r])) sl tl).find?
          (fun q => q.source_text = r.source_text) = some r) ∧
    (∀ (sl tl : String) (rs : List HistRecord),
      (rs.map (fun q => q.source_text)).Pairwise (fun a b => a ≠ b) →
      get_history (runHistory sl tl rs) sl tl = lastN 10 rs) := by
  refine ⟨?_, ?_, ?_⟩
  · intro sl tl rs
    rw [get_runHistory]
    exact foldl_addHistoryList_inv rs [] (by simp) (by simp)
  · intro sl tl rs r hmem
    rw [get_runHistory] at hmem
    rw [get_runHistory sl tl (rs ++ [r]), get_runHistory sl tl rs,
      List.foldl_append, List.foldl_cons, List.foldl_nil]
    have hinv := foldl_addHistoryList_inv rs [] (by simp) (by simp)
    exact addHistoryList_readd _ r hinv.2 hinv.1 hmem
  · intro sl tl rs hdist
    rw [get_runHistory]
    rw [foldl_addHistoryList_fresh rs [] (by simp) (by simp) hdist]
    rw [List.nil_append]

/-- A distinct-source history record for the witness. -/
def recn (i : Nat) : HistRecord := ⟨[i], [i + 100], none, none, i⟩

/-- Witness for the history bounding theorem: eleven adds with distinct
sources retain exactly the last ten. -/
theorem add_history_bounded_witness :
    get_history (runHistory "en" "ko" ((List.range 11).map recn)) "en" "ko" =
      lastN 10 ((List.range 11).map recn) :=
  add_history_bounded.2.2 "en" "ko" ((List.range 11).map recn) (by decide)

/-! ## The improvement loop (translate_evaluator in
app/services/translate_service.py) -/

/-- The outcome of the improvement loop: returned translation, its retained
score, the number of improve calls made, and the evaluated improvement
candidates in order. -/
structure LoopOutcome where
  translation : PyStr
  score : Int
  attempts : Nat
  cands : List PyStr
deriving DecidableEq

/-- The while-loop of translate_evaluator, driven by deterministic oracles:
evalf scores a translation (EVALUATOR.evaluate_translation) and impf gives
the improved translation for an attempt index and the current candidate
(EVALUATOR.improve_translation; feedback and word-mapping threading is
subsumed in the attempt index).  The timeout and exception branches are not
taken by deterministic oracles.  remaining counts the attempts still allowed. -/
def improveLoop (evalf : PyStr → Int) (impf : Nat → PyStr → PyStr)
    (threshold : Int) :
    Nat → Nat → PyStr → PyStr → Int → LoopOutcome
  | 0, _, _, bestT, bestS => ⟨bestT, bestS, 0, []⟩
  | remaining + 1, i, current, bestT, bestS =>
    let improved := impf i current
    if improved = current then ⟨bestT, bestS, 1, []⟩
    else
      let s := evalf improved
      let bestT' := if bestS < s then improved else bestT
      let bestS' := if bestS < s then s else bestS
      if threshold ≤ s then ⟨bestT', bestS', 1, [improved]⟩
      else
        let rest :=
          improveLoop evalf impf threshold remaining (i + 1) improved bestT' bestS'
        ⟨rest.translation, rest.score, rest.attempts + 1, improved :: rest.cands⟩

/-- translate_evaluator from translate_service.py as its score-driven control
flow over the oracles: evaluate the initial translation, keep it when it
meets the threshold, otherwise run the improvement loop for at most
maxAttempts attempts and keep the best-scoring candidate observed. -/
def translate_evaluator (evalf : PyStr → Int) (impf : Nat → PyStr → PyStr)
    (threshold : Int) (maxAttempts : Nat) (t0 : PyStr) : LoopOutcome :=
  let s0 := evalf t0
  if s0 < threshold then improveLoop evalf impf threshold maxAttempts 0 t0 t0 s0
  else ⟨t0, s0, 0, []⟩

theorem max_of_if (bestS s : Int) : (if bestS < s then s else bestS) = max bestS s := by
  rcases lt_or_ge bestS s with h | h
  · rw [if_pos h, max_eq_right (le_of_lt h)]
  · rw [if_neg (not_lt.mpr h), max_eq_left h]

theorem improveLoop_spec (evalf : PyStr → Int) (impf : Nat → PyStr → PyStr)
    (threshold : Int) :
    ∀ (remaining i : Nat) (current bestT : PyStr) (bestS : Int),
      evalf bestT = bestS →
      evalf (improveLoop evalf impf threshold remaining i current bestT bestS).translation
          = (improveLoop evalf impf threshold remaining i current bestT bestS).score ∧
      (improveLoop evalf impf threshold remaining i current bestT bestS).score =
        (((improveLoop evalf impf threshold remaining i current bestT bestS).cands.map
          evalf).foldl max bestS) ∧
      (improveLoop evalf impf threshold remaining i current bestT bestS).translation ∈
        bestT :: (improveLoop evalf impf threshold remaining i current bestT bestS).cands ∧
      (improveLoop evalf impf threshold remaining i current bestT bestS).attempts ≤
        remaining := by
  intro remaining
  induction remaining with
  | zero =>
    intro i current bestT bestS hbe
    exact ⟨hbe, rfl, List.mem_cons_self _ _, Nat.le_refl 0⟩
  | succ rem ih =>
    intro i current bestT bestS hbe
    simp only [improveLoop]
    by_cases heq : impf i current = current
    · rw [if_pos heq]
      exact ⟨hbe, rfl, List.mem_cons_self _ _, Nat.succ_le_succ (Nat.zero_le rem)⟩
    · rw [if_neg heq]
      by_cases hth : threshold ≤ evalf (impf i current)
      · rw [if_pos hth]
        refine ⟨?_, ?_, ?_, Nat.succ_le_succ (Nat.zero_le rem)⟩
        · by_cases himp : bestS < evalf (impf i current)
          · simp only [if_pos himp]
          · simp only [if_neg himp]
            exact hbe
        · show (if bestS < evalf (impf i current) then evalf (impf i current) else bestS)
            = List.foldl max bestS [evalf (impf i current)]
          rw [List.foldl_cons, List.foldl_nil, max_of_if]
        · by_cases himp : bestS < evalf (impf i current)
          · simp only [if_pos himp]
            exact List.mem_cons_of_mem _ (List.mem_cons_self _ _)
          · simp only [if_neg himp]
            exact List.mem_cons_self _ _
      · rw [if_neg hth]
        have hbe' : evalf (if bestS < evalf (impf i current) then impf i current else bestT)
            = (if bestS < evalf (impf i current) then evalf (impf i current) else bestS) := by
          by_cases himp : bestS < evalf (impf i current)
          · simp only [if_pos himp]
          · simp only [if_neg himp]
            exact hbe
        obtain ⟨h1, h2, h3, h4⟩ := ih (i + 1) (impf i current) _ _ hbe'
        refine ⟨h1, ?_, ?_, Nat.succ_le_succ h4⟩
        · rw [h2, List.map_cons, List.foldl_cons, max_of_if]
        · rcases List.mem_cons.mp h3 with h5 | h5
          · rw [h5]
            by_cases himp : bestS < evalf (impf i current)
            · simp only [if_pos himp]
              exact List.mem_cons_of_mem _ (List.mem_cons_self _ _)
            · simp only [if_neg himp]
              exact List.mem_cons_self _ _
          · exact List.mem_cons_of_mem _ (List.mem_cons_of_mem _ h5)

/-- Claim C3: if the initial evaluation meets the quality threshold, no
improvement attempt is made and the original translation is returned
unchanged; otherwise at most maxAttempts improve calls run, and the returned
translation is a best-scoring observed candidate: its score equals the
maximum of the initial score and all evaluated improvement scores, its own
evaluation equals that retained score, and it is the initial translation or
one of the evaluated candidates (so not necessarily the last produced). -/
theorem translate_evaluator_best_of (evalf : PyStr → Int)
    (impf : Nat → PyStr → PyStr) (threshold : Int) (maxAttempts : Nat) (t0 : PyStr) :
    (threshold ≤ evalf t0 →
      translate_evaluator evalf impf threshold maxAttempts t0 = ⟨t0, evalf t0, 0, []⟩) ∧
    (translate_evaluator evalf impf threshold maxAttempts t0).attempts ≤ maxAttempts ∧
    evalf (translate_evaluator evalf impf threshold maxAttempts t0).translation =
      (translate_evaluator evalf impf threshold maxAttempts t0).score ∧
    (translate_evaluator evalf impf threshold maxAttempts t0).score =
      (((translate_evaluator evalf impf threshold maxAttempts t0).cands.map evalf).foldl
        max (evalf t0)) ∧
    (translate_evaluator evalf impf threshold maxAttempts t0).translation ∈
      t0 :: (translate_evaluator evalf impf threshold maxAttempts t0).cands := by
  by_cases h0 : evalf t0 < threshold
  · have hres : translate_evaluator evalf impf threshold maxAttempts t0
        = improveLoop evalf impf threshold maxAttempts 0 t0 t0 (evalf t0) := by
      simp only [translate_evaluator]
      rw [if_pos h0]
    rw [hres]
    obtain ⟨h1, h2, h3, h4⟩ :=
      improveLoop_spec evalf impf threshold maxAttempts 0 t0 t0 (evalf t0) rfl
    exact ⟨fun hth => absurd h0 (not_lt.mpr hth), h4, h1, h2, h3⟩
  · have hres : translate_evaluator evalf impf threshold maxAttempts t0
        = ⟨t0, evalf t0, 0, []⟩ := by
      simp only [translate_evaluator]
      rw [if_neg h0]
    rw [hres]
    exact ⟨fun _ => rfl, Nat.zero_le _, rfl, rfl, List.mem_cons_self _ _⟩

/-- Scoring stub for the spec example: the initial candidate scores 60, the
first improvement 75, the second 68. -/
def evalStub : PyStr → Int := fun t => if t = [1] then 75 else if t = [2] then 68 else 60

/-- Improvement stub for the spec example: candidate 0 improves to 1, 1 to 2,
and 2 no longer changes. -/
def impStub : Nat → PyStr → PyStr := fun _ c => if c = [0] then [1] else if c = [1] then [2] else c

/-- Scoring stub that accepts immediately. -/
def evalStub95 : PyStr → Int := fun _ => 95

/-- Witness for the improvement-loop theorem: with an initial score of 95 and
threshold 90 nothing runs; with stub scores 60, 75, 68, threshold 90 and
three allowed attempts, the loop returns the candidate scored 75. -/
theorem translate_evaluator_best_of_witness :
    translate_evaluator evalStub95 impStub 90 3 [0] = ⟨[0], 95, 0, []⟩ ∧
    (translate_evaluator evalStub impStub 90 3 [0]).translation = [1] ∧
    (translate_evaluator evalStub impStub 90 3 [0]).score = 75 ∧
    (translate_evaluator evalStub impStub 90 3 [0]).attempts = 3 :=
  ⟨(translate_evaluator_best_of evalStub95 impStub 90 3 [0]).1 (by decide),
   by decide, by decide, by decide⟩

/-! ## app/services/translate_evaluator.py: evaluate_translation -/

/-- The feedback string of the too-short early return. -/
def shortMsg : String := "매우 짧은 텍스트로 평가가 제한됨"

/-- The feedback string of the identical-text early return. -/
def identMsg : String := "번역이 필요 없는 텍스트"

/-- evaluate_translation from translate_evaluator.py up to its two early
returns; past them, the backend-driven branch (prompt assembly, the model
call, parse fallbacks, clamping, history stores) is the backend oracle. -/
def evaluate_translation (backend : PyStr → PyStr → Int × String)
    (source_text translated_text : PyStr) : Int × String :=
  if source_text.length < 3 ∨ translated_text.length < 3 then (95, shortMsg)
  else if source_text = translated_text then (100, identMsg)
  else backend source_text translated_text

/-- A fixed backend oracle for concrete runs. -/
def constBackend : PyStr → PyStr → Int × String := fun _ _ => (70, "fallback")

/-- Counterexample to claim C8 as stated: source and translation are the
identical string ab, yet the score is 95 rather than 100, because the
too-short check runs before the identical-text check. -/
theorem evaluate_translation_short_identical_cex :
    strOf "ab" = strOf "ab" ∧
    (evaluate_translation constBackend (strOf "ab") (strOf "ab")).1 = 95 ∧
    (evaluate_translation constBackend (strOf "ab") (strOf "ab")).1 ≠ 100 :=
  ⟨rfl, rfl, by decide⟩

/-- Claim C8 amended: a source or translation shorter than 3 characters
scores 95, and identical source and translation score 100 when both are at
least 3 characters long (the too-short rule takes precedence); both outcomes
are identical for every backend oracle, so no backend call is involved. -/
theorem evaluate_translation_trivial (backend : PyStr → PyStr → Int × String)
    (src tr : PyStr) :
    (src.length < 3 ∨ tr.length < 3 →
      evaluate_translation backend src tr = (95, shortMsg)) ∧
    (src = tr → 3 ≤ src.length → 3 ≤ tr.length →
      evaluate_translation backend src tr = (100, identMsg)) := by
  constructor
  · intro h
    unfold evaluate_translation
    rw [if_pos h]
  · intro heq h1 h2
    unfold evaluate_translation
    rw [if_neg (by omega), if_pos heq]

/-- Witness for the amended trivial-acceptance theorem at concrete inputs. -/
theorem evaluate_translation_trivial_witness :
    evaluate_translation constBackend (strOf "hi") (strOf "안녕하세요") = (95, shortMsg) ∧
    evaluate_translation constBackend (strOf "abc") (strOf "abc") = (100, identMsg) :=
  ⟨(evaluate_translation_trivial constBackend (strOf "hi") (strOf "안녕하세요")).1
      (by decide),
   (evaluate_translation_trivial constBackend (strOf "abc") (strOf "abc")).2 rfl
      (by decide) (by decide)⟩

/-! ## app/services/translate_service.py: translate_text and its cache, and
app/services/consistent_translator.py -/

/-- The settings fields translate_text reads. -/
structure TSettings where
  ENABLE_CACHE : Bool
  ENABLE_DICTIONARY : Bool
  ENABLE_EVALUATION : Bool
  MIN_TEXT_LENGTH_FOR_EVALUATION : Nat
  MAX_TEXT_LENGTH_FOR_EVALUATION : Nat
deriving DecidableEq

/-- Request-level failures raised by the pipeline. -/
inductive TransErr where
  | http500
  | http503
  | sourceLangRequired
  | pyErr (e : PyError)
deriving DecidableEq

/-- The mutable process state the pipeline touches: the dictionary cache, the
translation history, and the translation cache. -/
structure TState where
  dicts : DictsState
  history : HistState
  cache : List (PyStr × PyStr)

/-- The oracles of one run: chat subsumes prompt assembly (SystemPrompt with
its reference and history blocks), the Ollama call and
parse_llm_json_response, yielding the parsed translated text and word
mapping (an error is an httpx.RequestError); evalImprove subsumes the
translate_evaluator call, whose control flow is modelled separately by
translate_evaluator above; the file oracles drive dictionary persistence as
in get_dictionary and add_translation; timestamp is the clock reading. -/
structure TOracles where
  chat : String → String → PyStr → Except Unit (PyStr × List WordMappingE)
  evalImprove : PyStr → List WordMappingE → PyStr × List WordMappingE
  dictFileExists : String → Bool
  dictRead : String → Option TermDict
  dictWriteOk : Bool
  timestamp : Nat

/-- The cache key sourceLang:targetLang:text of translate_text. -/
def cacheKey (source_lang target_lang : String) (text : PyStr) : PyStr :=
  strOf source_lang ++ [58] ++ (strOf target_lang ++ [58] ++ text)

/-- The cache store on the backend path of translate_text: insert, then, when
the entry count exceeds 1000, evict the 100 entries earliest in iteration
order (pop of the first 100 keys). -/
def cacheStoreTrim (cache : List (PyStr × PyStr)) (key v : PyStr) :
    List (PyStr × PyStr) :=
  let cache' := dictInsert cache key v
  if 1000 < cache'.length then
    ((cache'.map Prod.fst).take 100).foldl
      (fun acc k => acc.eraseP (fun q => q.1 = k)) cache'
  else cache'

/-- The backend path of translate_text, after the cache and dictionary-hit
short circuits: re-fetch the dictionary for the known-terms scan (whose
result only feeds the prompt, which the chat oracle subsumes), clean the
text, call the backend, fail on connection errors (503) and empty
translations (500), optionally run the improvement loop, then record
history, store to the cache with eviction, and ingest the word mappings. -/
def translateBackendPath (cfg : TSettings) (orc : TOracles) (st : TState)
    (source_lang target_lang : String) (text : PyStr) :
    Except TransErr (PyStr × TState) :=
  let scanned :=
    if cfg.ENABLE_DICTIONARY then
      get_dictionary st.dicts target_lang (orc.dictFileExists target_lang)
        (orc.dictRead target_lang)
    else .ok ([], st.dicts)
  match scanned with
  | .error e => .error (.pyErr e)
  | .ok (_, dicts₁) =>
    let cleaned_text := clean_special_chars text
    match orc.chat source_lang target_lang cleaned_text with
    | .error _ => .error .http503
    | .ok (translated₀, wm₀) =>
      if translated₀ = [] then .error .http500
      else
        let stepEval :=
          if cfg.ENABLE_EVALUATION ∧
              cfg.MIN_TEXT_LENGTH_FOR_EVALUATION ≤ text.length ∧
              text.length ≤ cfg.MAX_TEXT_LENGTH_FOR_EVALUATION ∧
              2 ≤ translated₀.length then
            orc.evalImprove translated₀ wm₀
          else (translated₀, wm₀)
        let history₁ := add_history st.history source_lang target_lang
          ⟨text, stepEval.1, none, none, orc.timestamp⟩
        let cache₁ :=
          if cfg.ENABLE_CACHE then
            cacheStoreTrim st.cache (cacheKey source_lang target_lang text) stepEval.1
          else st.cache
        let dicts₂ := process_word_mapping dicts₁ stepEval.2 target_lang orc.dictWriteOk
        .ok (stepEval.1, ⟨dicts₂, history₁, cache₁⟩)

/-- translate_text from translate_service.py: default an absent source
language to auto, return the empty string for empty or whitespace-only text,
serve a cache hit, serve a dictionary hit (recording history with score 100
and storing to the cache with no eviction), and otherwise run the backend
path. -/
def translate_text (cfg : TSettings) (orc : TOracles) (st : TState)
    (source_lang target_lang : String) (text : PyStr) :
    Except TransErr (PyStr × TState) :=
  let source_lang := if source_lang = "" then "auto" else source_lang
  if text = [] ∨ pyStrip text = [] then .ok ([], st)
  else
    let key := cacheKey source_lang target_lang text
    match (if cfg.ENABLE_CACHE then lookupAssoc st.cache key else none) with
    | some cached => .ok (cached, st)
    | none =>
      if cfg.ENABLE_DICTIONARY then
        match get_translation st.dicts (orc.dictFileExists target_lang)
            (orc.dictRead target_lang) text target_lang with
        | .error e => .error (.pyErr e)
        | .ok (some dictionary_translation, dicts₁) =>
          let history₁ := add_history st.history source_lang target_lang
            ⟨text, dictionary_translation, some 100, none, orc.timestamp⟩
          let cache₁ :=
            if cfg.ENABLE_CACHE then dictInsert st.cache key dictionary_translation
            else st.cache
          .ok (dictionary_translation, ⟨dicts₁, history₁, cache₁⟩)
        | .ok (none, dicts₁) =>
          translateBackendPath cfg orc ⟨dicts₁, st.history, st.cache⟩
            source_lang target_lang text
      else translateBackendPath cfg orc st source_lang target_lang text

/-- ConsistentTranslator.translate from consistent_translator.py: a missing
source language raises source_lang is required; equal source and target
language returns the text unchanged; empty or whitespace-only text returns
the empty string; otherwise the dictionary prompt references are collected
(they only select which system prompt translate_text receives, a distinction
the chat oracle subsumes) and translate_text runs. -/
def consistent_translate (cfg : TSettings) (orc : TOracles) (st : TState)
    (text : PyStr) (source_lang target_lang : String) :
    Except TransErr (PyStr × TState) :=
  if source_lang = "" then .error .sourceLangRequired
  else if source_lang = target_lang then .ok (text, st)
  else if text = [] ∨ pyStrip text = [] then .ok ([], st)
  else
    match get_prompt_references st.dicts (orc.dictFileExists target_lang)
        (orc.dictRead target_lang) text target_lang with
    | .error e => .error (.pyErr e)
    | .ok (_, dicts₁) =>
      translate_text cfg orc ⟨dicts₁, st.history, st.cache⟩ source_lang target_lang text

theorem dictInsert_length {K V : Type} [DecidableEq K] (l : List (K × V))
    (k : K) (v : V) :
    (dictInsert l k v).length = l.length ∨
    (dictInsert l k v).length = l.length + 1 := by
  unfold dictInsert
  split
  · left
    rw [List.length_map]
  · right
    rw [List.length_append]
    rfl

theorem eraseFold_take_drop {K V : Type} [DecidableEq K] :
    ∀ (n : Nat) (c : List (K × V)),
      ((c.map Prod.fst).take n).foldl (fun acc k => acc.eraseP (fun q => q.1 = k)) c
        = c.drop n := by
  intro n
  induction n with
  | zero => intro c; simp
  | succ m ih =>
    intro c
    cases c with
    | nil => simp
    | cons p cs =>
      rw [List.map_cons, List.take_succ_cons, List.foldl_cons]
      have h1 : (p :: cs).eraseP (fun q => q.1 = p.1) = cs := by
        rw [List.eraseP_cons]
        simp
      rw [h1, ih, List.drop_succ_cons]

/-- Claim C4 amended: eviction runs only on the backend-path store: there,
when the entry count after the insert exceeds 1000, the 100 entries earliest
in iteration order are dropped, so a backend-path store preserves the
1000-entry bound; the dictionary-hit store inserts with no eviction and can
leave the cache above 1000 entries (see the counterexample). -/
theorem cache_store_trim_bound (cache : List (PyStr × PyStr)) (key v : PyStr) :
    (cache.length ≤ 1000 → (cacheStoreTrim cache key v).length ≤ 1000) ∧
    (1000 < (dictInsert cache key v).length →
      cacheStoreTrim cache key v = (dictInsert cache key v).drop 100) := by
  constructor
  · intro hlen
    unfold cacheStoreTrim
    by_cases hc : 1000 < (dictInsert cache key v).length
    · rw [if_pos hc, eraseFold_take_drop, List.length_drop]
      rcases dictInsert_length cache key v with h | h <;> omega
    · rw [if_neg hc]
      omega
  · intro hc
    unfold cacheStoreTrim
    rw [if_pos hc, eraseFold_take_drop]

/-- Witness for the amended cache bound at a small store. -/
theorem cache_store_trim_bound_witness :
    (cacheStoreTrim [] [0] [1]).length ≤ 1000 :=
  (cache_store_trim_bound [] [0] [1]).1 (by decide)

/-- One thousand distinct single-codepoint cache keys. -/
def bigCache : List (PyStr × PyStr) := (List.range 1000).map (fun i => ([i], [i]))

/-- Settings with cache and dictionary on. -/
def cfgOn : TSettings := ⟨true, true, false, 8, 1000⟩

/-- A fixed oracle bundle for concrete runs. -/
def orcFixed : TOracles :=
  ⟨fun _ _ _ => .ok (strOf "안녕", []), fun t w => (t, w), fun _ => true,
   fun _ => none, true, 0⟩

/-- A full cache together with the Sara dictionary. -/
def stFull : TState := ⟨exDicts, [], bigCache⟩

set_option maxRecDepth 100000 in
/-- Counterexample to claim C4: a dictionary-hit store on a cache that
already holds 1000 entries leaves 1001 entries, because that store path
performs no eviction. -/
theorem cache_dict_hit_overflow_cex :
    (translate_text cfgOn orcFixed stFull "en" "ko" (strOf "Sara")).map
      (fun p => p.2.cache.length) = .ok 1001 := by rfl

/-- The empty pipeline state. -/
def stEmpty : TState := ⟨[], [], []⟩

/-- Counterexample to claim C6: at the top level (ConsistentTranslator), an
absent source language is not treated as auto: the call raises source_lang
is required, so the request fails. -/
theorem consistent_translate_missing_source_cex :
    consistent_translate cfgOn orcFixed stEmpty (strOf "hello") "" "ko" =
      .error .sourceLangRequired := rfl

/-- Claim C6 amended: the top level (ConsistentTranslator.translate)
short-circuits before any backend or dictionary work, but an absent source
language raises source_lang is required (the request fails) instead of being
treated as auto; equal source and target return the text unchanged;
whitespace-only text returns the empty string (the same-language case taking
precedence); only the lower-level translate_text treats an absent source
language as auto.  Each short-circuit is uniform in the settings, oracles
and state, so no backend or dictionary access is involved. -/
theorem consistent_translate_short_circuits (cfg : TSettings) (orc : TOracles)
    (st : TState) (text : PyStr) (sl tl : String) :
    (consistent_translate cfg orc st text "" tl = .error .sourceLangRequired) ∧
    (sl ≠ "" → sl = tl → consistent_translate cfg orc st text sl tl = .ok (text, st)) ∧
    (sl ≠ "" → sl ≠ tl → (text = [] ∨ pyStrip text = []) →
      consistent_translate cfg orc st text sl tl = .ok ([], st)) ∧
    (translate_text cfg orc st "" tl text = translate_text cfg orc st "auto" tl text) := by
  refine ⟨rfl, ?_, ?_, rfl⟩
  · intro h1 h2
    unfold consistent_translate
    rw [if_neg h1, if_pos h2]
  · intro h1 h2 h3
    unfold consistent_translate
    rw [if_neg h1, if_neg h2, if_pos h3]

/-- Witness for the top-level short-circuit theorem: same-language input is
returned unchanged, and whitespace-only text yields the empty string. -/
theorem consistent_translate_short_circuits_witness :
    consistent_translate cfgOn orcFixed stEmpty (strOf "hello") "en" "en" =
      .ok (strOf "hello", stEmpty) ∧
    consistent_translate cfgOn orcFixed stEmpty (strOf "  ") "en" "ko" =
      .ok ([], stEmpty) :=
  ⟨(consistent_translate_short_circuits cfgOn orcFixed stEmpty (strOf "hello")
      "en" "en").2.1 (by decide) rfl,
   (consistent_translate_short_circuits cfgOn orcFixed stEmpty (strOf "  ")
      "en" "ko").2.2.1 (by decide) (by decide) (by decide)⟩
